import Mathlib

/-!
Verification of the testworld container-orchestration library.

The Go source is shallowly embedded: pure helpers (`basename`, name
formatting) become Lean functions on `String` and `List Char`; the
provisioning/teardown control flow becomes explicit state passing and
action traces; `time.Time` values become rationals (seconds), with the
zero `time.Time` sentinel embedded as `Option`; Go `int` becomes `Int`
and slice lengths become `Nat`.
-/

namespace Testworld

/-! ### Decimal rendering: embedding of Go fmt verbs %d and %03d -/

/-- One decimal digit as a character, `0 ≤ d ≤ 9` expected. -/
def decDigit (d : Nat) : Char := Char.ofNat (48 + d)

/-- Fuel-driven digit extraction, most significant first; the fuel only
bounds the recursion depth and `n + 1` is always enough. -/
def decDigitsCore (fuel n : Nat) : List Char :=
  match fuel with
  | 0 => []
  | fuel + 1 =>
    if n < 10 then [decDigit n]
    else decDigitsCore fuel (n / 10) ++ [decDigit (n % 10)]

/-- Decimal digit list of a natural number, most significant first.
This is the semantics of Go fmt verb %d for nonnegative values. -/
def decDigits (n : Nat) : List Char := decDigitsCore (n + 1) n

/-- Decimal string of a natural number: Go fmt %d. -/
def decRepr (n : Nat) : String := ⟨decDigits n⟩

/-- Decimal string left-padded with zeros to width 3: Go fmt %03d. -/
def pad3 (n : Nat) : List Char :=
  List.replicate (3 - (decDigits n).length) '0' ++ decDigits n

/-- Value of a digit character. -/
def digitVal (c : Char) : Nat := c.toNat - 48

/-- Evaluate a most-significant-first digit list back to a number. -/
def digitsVal (l : List Char) : Nat :=
  l.foldl (fun acc c => 10 * acc + digitVal c) 0

theorem digitsVal_append (l m : List Char) :
    digitsVal (l ++ m) = m.foldl (fun acc c => 10 * acc + digitVal c) (digitsVal l) := by
  simp [digitsVal, List.foldl_append]

theorem digitVal_decDigit (d : Nat) (h : d < 10) : digitVal (decDigit d) = d := by
  interval_cases d <;> decide

theorem digitsVal_decDigitsCore (fuel n : Nat) (hf : n < fuel) :
    digitsVal (decDigitsCore fuel n) = n := by
  induction fuel generalizing n with
  | zero => omega
  | succ fuel ih =>
    rw [decDigitsCore]
    by_cases h : n < 10
    · rw [if_pos h]
      simp [digitsVal, digitVal_decDigit n h]
    · rw [if_neg h]
      have hdiv : n / 10 < fuel := by
        have h2 : n / 10 < n := Nat.div_lt_self (by omega) (by omega)
        omega
      rw [digitsVal_append, ih (n / 10) hdiv]
      simp [List.foldl, digitVal_decDigit (n % 10) (Nat.mod_lt _ (by omega))]
      omega

theorem digitsVal_decDigits (n : Nat) : digitsVal (decDigits n) = n :=
  digitsVal_decDigitsCore (n + 1) n (Nat.lt_succ_self n)

theorem decDigits_injective : Function.Injective decDigits := by
  intro a b h
  have := digitsVal_decDigits a
  rw [h, digitsVal_decDigits] at this
  omega

theorem decRepr_injective : Function.Injective decRepr := by
  intro a b h
  apply decDigits_injective
  exact congrArg String.data h

/-! ### basename (testworld.go) -/

/-- strings.Index for a single-character separator: index of the first
occurrence, `none` when absent (Go returns -1). -/
def goIndex (c : Char) (l : List Char) : Option Nat :=
  l.findIdx? (fun x => x = c)

/-- strings.LastIndex for a single-character separator: index of the
last occurrence, `none` when absent (Go returns -1). -/
def goLastIndex (c : Char) (l : List Char) : Option Nat :=
  match goIndex c l.reverse with
  | some i => some (l.length - 1 - i)
  | none => none

/-- basename returns the last component of a path, stripping any suffix
after a colon; `basename` in testworld.go. -/
def basename (s : String) : String :=
  let l1 :=
    match goLastIndex '/' s.data with
    | some i => s.data.drop (i + 1)
    | none => s.data
  let l2 :=
    match goIndex ':' l1 with
    | some i => l1.take i
    | none => l1
  ⟨l2⟩

/-! ### Container data model

The provider handle type (testcontainers.Container) is opaque to the
core, so it is a type parameter α throughout. -/

/-- Outcome of one provisioning attempt once resolved: the
container-or-error pair the creation goroutine stores in the
pendingContainer before closing the ready channel. -/
inductive Outcome (α : Type) where
  | ok (handle : α)
  | err (msg : String)
deriving DecidableEq, Repr

/-- The stored handle, if the outcome was a success. -/
def Outcome.handleOpt {α : Type} : Outcome α → Option α
  | .ok h => some h
  | .err _ => none

/-- pendingContainer in testworld.go: per-replica name plus the result
of async creation. The ready channel is embedded as `resolved`: `none`
while the channel is still open (goroutine running), `some o` once the
goroutine has written the outcome and closed the channel. -/
structure PendingContainer (α : Type) where
  name : String
  resolved : Option (Outcome α)
deriving DecidableEq, Repr

/-- A pending slot at a moment where its creation goroutine has
finished: the state `waitReady` observes after receiving from the ready
channel. -/
structure ResolvedSlot (α : Type) where
  name : String
  outcome : Outcome α
deriving DecidableEq, Repr

/-- WorldContainer in testworld.go (a replica group). The `world` back
pointer is carried separately in the embedding; `onDestroy` is embedded
as its presence, since the callback itself is opaque test code. -/
structure WorldContainerT (α : Type) where
  Name : String
  isReady : Bool
  pending : List (PendingContainer α)
  hasOnDestroy : Bool
deriving DecidableEq, Repr

/-- World in testworld.go: the per-test namespace. The context, *testing.T
and docker network are external collaborators and are not part of the
state the claims concern; `containerKinds` is the Go map with its
zero-default read semantics; `containers` is the registry map, embedded
as an association list in insertion order. -/
structure WorldT (α : Type) where
  name : String
  containers : List (String × WorldContainerT α)
  containerKinds : String → Nat

/-- ContainerSpec in containerspec.go. Fields that flow opaquely to the
provisioning provider (Entrypoint, Cmd, Env, ExposedPorts, Files, Tmpfs,
modifiers, WaitingFor) are omitted: the core never inspects them. The
OnDestroy callback is embedded as its presence. -/
structure ContainerSpecT where
  Image : String
  FromDockerfileContext : String
  Started : Bool
  Awaited : Bool
  Replicas : Int
  hasOnDestroy : Bool
deriving DecidableEq, Repr

/-! ### NewContainer (testworld.go lines 215-279) -/

/-- The kind-derivation chain at the top of NewContainer: image
basename, then dockerfile-context basename, then the literal fallback. -/
def kindOf (spec : ContainerSpecT) : String :=
  let kind := basename spec.Image
  let kind := if kind = "" then basename spec.FromDockerfileContext else kind
  if kind = "" then "container" else kind

/-- One provisioning goroutine scheduled by NewContainer (the createFn
closure passed to `go`), identified by the slot it will resolve and the
request data baked into it. -/
structure ProvisionTask where
  slotIndex : Nat
  replicaName : String
  aliases : List String
deriving DecidableEq, Repr

/-- What NewContainer has produced at the moment it returns: the group
value, the updated world, and the list of provisioning goroutines that
were scheduled concurrently (none of which has necessarily run yet). -/
structure NewContainerResult (α : Type) where
  wc : WorldContainerT α
  world : WorldT α
  spawned : List ProvisionTask

/-- The per-replica name chosen inside the creation loop (i is the
0-based loop index). -/
def replicaNameOf (name : String) (replicas : Int) (i : Nat) : String :=
  if replicas > 1 then name ++ "-" ++ decRepr (i + 1) else name

/-- The per-replica network alias list chosen inside the creation loop. -/
def aliasesOf (name : String) (replicas : Int) (i : Nat) : List String :=
  if replicas > 1 then [replicaNameOf name replicas i, name] else [name]

/-- NewContainer in testworld.go: derives the kind, increments the
per-kind counter, names the group, registers it synchronously, and
schedules one creation goroutine per replica. Every `go createFn()` is
recorded in `spawned`; at return no slot has been resolved by this call
itself (the goroutines run concurrently). -/
def newContainer {α : Type} (w : WorldT α) (spec : ContainerSpecT) :
    NewContainerResult α :=
  let kind := kindOf spec
  let count := w.containerKinds kind + 1
  let name := w.name ++ "-" ++ kind ++ "-" ++ decRepr count
  let replicas : Int := max spec.Replicas 1
  let n := replicas.toNat
  let pending : List (PendingContainer α) :=
    (List.range n).map (fun i => ⟨replicaNameOf name replicas i, none⟩)
  let tasks : List ProvisionTask :=
    (List.range n).map
      (fun i => ⟨i, replicaNameOf name replicas i, aliasesOf name replicas i⟩)
  let wc : WorldContainerT α :=
    { Name := name, isReady := false, pending := pending,
      hasOnDestroy := spec.hasOnDestroy }
  { wc := wc
    world :=
      { w with
        containerKinds := fun k => if k = kind then count else w.containerKinds k
        containers := w.containers ++ [(name, wc)] }
    spawned := tasks }

/-! ### waitReady / mustReady (testworld.go lines 67-91)

`waitReady` receives from each member's ready channel in member index
order; on the first stored error it returns immediately with the
partially filled container slice and an error wrapping the member name.
The input is the sequence of resolved states the receives observe. -/

/-- What a call to waitReady produces: the containers slice (entries
still nil where the loop never stored a handle), the returned error
message, and the number of members whose ready channel was received
from (members are received from in index order, so these are exactly
the first `reads` members). -/
structure WaitReadyResult (α : Type) where
  containers : List (Option α)
  errMsg : Option String
  reads : Nat
deriving DecidableEq, Repr

/-- waitReady in testworld.go. The error is fmt.Errorf with the failed
member's name wrapping the stored error. -/
def waitReady {α : Type} : List (ResolvedSlot α) → WaitReadyResult α
  | [] => ⟨[], none, 0⟩
  | s :: rest =>
    match s.outcome with
    | .err m =>
        ⟨List.replicate (rest.length + 1) none, some (s.name ++ ": " ++ m), 1⟩
    | .ok h =>
        let r := waitReady rest
        ⟨some h :: r.containers, r.errMsg, r.reads + 1⟩

/-- Result of mustReady: either the fatal test failure (t.Fatalf message)
or the containers of every member. -/
inductive MustReadyResult (α : Type) where
  | fatal (msg : String)
  | ok (containers : List (Option α))
deriving DecidableEq, Repr

/-- mustReady in testworld.go: waitReady, then t.Fatalf on error. -/
def mustReady {α : Type} (groupName : String) (slots : List (ResolvedSlot α)) :
    MustReadyResult α :=
  let r := waitReady slots
  match r.errMsg with
  | some e => .fatal ("Container " ++ groupName ++ " failed to create: " ++ e)
  | none => .ok r.containers

/-! ### World.Destroy (testworld.go lines 155-190)

Destroy is embedded as the trace of externally visible actions the
teardown loop performs, in execution order. I/O failures inside log
collection and termination are reported and never escalate, so they do
not change the action sequence the loop performs next. -/

/-- One observable teardown action. -/
inductive DestroyAction where
  | resolveSlot (member : String)
  | reportCreateFailure (member : String)
  | collectLogs (member : String)
  | terminate (member : String)
  | runOnDestroy (group : String)
  | finalizeTimeline
deriving DecidableEq, Repr

/-- The body of the inner member loop of Destroy: receive from the ready
channel, then either report the stored creation error and continue, or
collect logs and terminate with the 500ms grace period. -/
def destroyMember {α : Type} (m : ResolvedSlot α) : List DestroyAction :=
  DestroyAction.resolveSlot m.name ::
    match m.outcome with
    | .err _ => [DestroyAction.reportCreateFailure m.name]
    | .ok _ => [DestroyAction.collectLogs m.name, DestroyAction.terminate m.name]

/-- The state of one registered group as the teardown loop reaches it:
its members' resolved slots, in member order. -/
structure GroupTeardown (α : Type) where
  name : String
  members : List (ResolvedSlot α)
  hasOnDestroy : Bool
deriving DecidableEq, Repr

/-- The per-group body of Destroy: every member in member order, then
the onDestroy callback when one is registered. -/
def destroyGroup {α : Type} (g : GroupTeardown α) : List DestroyAction :=
  g.members.flatMap destroyMember ++
    (if g.hasOnDestroy then [DestroyAction.runOnDestroy g.name] else [])

/-- World.Destroy: every registered group (in the registry iteration
order `gs`), then the destroy event is finished and the world log is
finalized. -/
def destroyWorld {α : Type} (gs : List (GroupTeardown α)) : List DestroyAction :=
  gs.flatMap destroyGroup ++ [DestroyAction.finalizeTimeline]

/-! ### WorldLog event-id allocation (worldlog.go lines 452-487)

`newEvent` takes `el.rw.Lock()`, builds an Event whose id is the current
`eventCounter`, appends it to `el.events`, increments the counter, and
unlocks. The mutex serializes all concurrent callers, so any concurrent
execution is equivalent to some sequence of these critical sections;
the state machine below is that critical section. -/

/-- The lock-protected part of the WorldLog state: the shared counter
and the ids (paired with descriptions) of the appended events. -/
structure LogCounterState where
  eventCounter : Nat
  events : List (Nat × String)
deriving DecidableEq, Repr

/-- The critical section of newEvent: allocate the id, append, bump. -/
def newEventStep (s : LogCounterState) (desc : String) : LogCounterState :=
  { eventCounter := s.eventCounter + 1,
    events := s.events ++ [(s.eventCounter, desc)] }

/-- The WorldLog state NewWorldLog returns: Go zero values, counter 0
and nil event list. -/
def logInit : LogCounterState := { eventCounter := 0, events := [] }

/-- Any serialization of concurrent newEvent calls: run the critical
sections one after the other. -/
def runNewEvents : List String → LogCounterState → LogCounterState
  | [], s => s
  | d :: ds, s => runNewEvents ds (newEventStep s d)

/-! ### Gantt rendering (worldlog.go lines 385-449)

`time.Time` values are embedded as rational seconds; the zero
`time.Time` used as the never-finished sentinel becomes `none`. The
float64 arithmetic of printGantt is embedded exactly over ℚ; Go's
float64-to-int conversion truncates toward zero. -/

/-- Event in worldlog.go (id, description, start, finish). -/
structure EventT where
  id : Nat
  description : String
  startTime : ℚ
  finishTime : Option ℚ
deriving DecidableEq, Repr

/-- WorldLog timing state at finalization: creation time (set by
NewWorldLog), teardown time (set by finish), and the event list. -/
structure WorldLogT where
  startTime : ℚ
  finishTime : ℚ
  events : List EventT
deriving DecidableEq, Repr

/-- The `totalDuration` computed at the top of printGantt:
`el.finishTime.Sub(el.startTime).Seconds()`. -/
def totalDurationOf (el : WorldLogT) : ℚ := el.finishTime - el.startTime

/-- The finish time printGantt uses per event: the event's own finish,
or the world-destroy time when the event was never finished. -/
def effFinish (el : WorldLogT) (e : EventT) : ℚ :=
  match e.finishTime with
  | some t => t
  | none => el.finishTime

/-- `startOffset` in printGantt. -/
def startOffset (el : WorldLogT) (e : EventT) : ℚ := e.startTime - el.startTime

/-- `duration` in printGantt. -/
def ganttDuration (el : WorldLogT) (e : EventT) : ℚ :=
  effFinish el e - e.startTime

/-- Go conversion from float64 to int: truncation toward zero. -/
def goIntOfRat (q : ℚ) : Int := if 0 ≤ q then ⌊q⌋ else ⌈q⌉

/-- The fixed chart width (testworld.go line 19). -/
def timelineWidth : Nat := 80

/-- `startPos` in printGantt: scaled offset, truncated, clamped to ≥ 0. -/
def startPos (el : WorldLogT) (e : EventT) : Int :=
  max (goIntOfRat (startOffset el e / totalDurationOf el * (timelineWidth : ℚ))) 0

/-- `barLen` in printGantt: scaled duration, truncated, clamped to ≥ 1. -/
def barLen (el : WorldLogT) (e : EventT) : Int :=
  max (goIntOfRat (ganttDuration el e / totalDurationOf el * (timelineWidth : ℚ))) 1

/-- Go fmt %.3f applied to an exact rational: value rounded to three
decimal places, half to even. -/
def round3 (q : ℚ) : Int :=
  let x := q * 1000
  let n := ⌊x⌋
  if x - n > 1 / 2 then n + 1
  else if x - n < 1 / 2 then n
  else if n % 2 = 0 then n else n + 1

/-- Render a rational with exactly three decimal digits, as %.3f does. -/
def fmt3 (q : ℚ) : String :=
  let m := round3 q
  let sign := if m < 0 then "-" else ""
  let a := m.natAbs
  sign ++ decRepr (a / 1000) ++ "." ++ ⟨pad3 (a % 1000)⟩

/-- One line of the Gantt chart: Fprintf with format
"%03d |%s[%s] (%.3fs) %s\n" (worldlog.go lines 446-447). -/
def ganttLine (el : WorldLogT) (e : EventT) : String :=
  (⟨pad3 e.id⟩ : String) ++ " |" ++
    (⟨List.replicate (startPos el e).toNat ' '⟩ : String) ++ "[" ++
    (⟨List.replicate (barLen el e).toNat '#'⟩ : String) ++ "] (" ++
    fmt3 (ganttDuration el e) ++ "s) " ++ e.description ++ "\n"

/-- Modelled from the claim's words, for comparison with
`totalDurationOf`: the last event's finish time (teardown time for a
never-finished event) minus the first event's start time. -/
def claimTotalSpan (el : WorldLogT) : ℚ :=
  (match el.events.getLast? with
   | some e => effFinish el e
   | none => el.finishTime) -
  (match el.events.head? with
   | some e => e.startTime
   | none => el.startTime)

/-! ### Event log concatenation order (worldlog.go lines 395-412, 475)

Each event writes to a file named `event_%03d.log`; finish() reads the
directory with os.ReadDir, which returns entries sorted by filename in
byte order, and concatenates in that order. -/

/-- The temporary log file name of an event (worldlog.go line 475). -/
def eventFileName (id : Nat) : String := "event_" ++ (⟨pad3 id⟩ : String) ++ ".log"

/-- Byte-lexicographic order on (ASCII) strings, the order os.ReadDir
sorts filenames by. -/
def bytesLt : List Char → List Char → Bool
  | _, [] => false
  | [], _ :: _ => true
  | a :: as, b :: bs =>
    if a < b then true
    else if b < a then false
    else bytesLt as bs

/-- Filename comparison used to model the ReadDir sort. -/
def fileNameLt (s t : String) : Bool := bytesLt s.data t.data

/-- The at-most relation on ids induced by comparing their event file
names, i.e. the sort key os.ReadDir uses. -/
def fileLe (i j : Nat) : Bool := ! fileNameLt (eventFileName j) (eventFileName i)

/-- The order in which finish() concatenates the event logs of ids
0, ..., n-1: ids sorted by their file names, as ReadDir returns them. -/
def concatOrder (n : Nat) : List Nat :=
  (List.range n).mergeSort fileLe

/-- A call of waitReady against the shared slot store, with its effect
on the store made explicit: the body only receives from the (already
closed) ready channels and reads the stored fields, so the store the
call leaves behind is the store it found. -/
def waitReadyOp {α : Type} (store : List (ResolvedSlot α)) :
    WaitReadyResult α × List (ResolvedSlot α) :=
  (waitReady store, store)

/-! ### Concrete sample values used by counterexamples and witnesses -/

/-- A fresh world named like a test, with no groups and zero counters
(handles instantiated at Nat). -/
def w0 : WorldT Nat := { name := "TestWorld", containers := [], containerKinds := fun _ => 0 }

/-- A spec that requests synchronous creation (Awaited = true). -/
def awaitedSpec : ContainerSpecT :=
  { Image := "alpine:latest", FromDockerfileContext := "", Started := true,
    Awaited := true, Replicas := 1, hasOnDestroy := false }

/-- A plain one-replica alpine spec. -/
def specA : ContainerSpecT :=
  { Image := "alpine:latest", FromDockerfileContext := "", Started := true,
    Awaited := false, Replicas := 1, hasOnDestroy := false }

/-- A three-replica caddy spec. -/
def specR3 : ContainerSpecT :=
  { Image := "docker.io/library/caddy:2", FromDockerfileContext := "", Started := true,
    Awaited := false, Replicas := 3, hasOnDestroy := false }

/-- A spec with an unset (zero) replica count. -/
def specZeroReplicas : ContainerSpecT :=
  { Image := "redis:7", FromDockerfileContext := "", Started := true,
    Awaited := false, Replicas := 0, hasOnDestroy := false }

/-- A one-member group whose member failed to create, without callback. -/
def gA : GroupTeardown Nat :=
  { name := "a", members := [⟨"a-1", Outcome.err "nope"⟩], hasOnDestroy := false }

/-- A two-member group whose members created fine, with a callback. -/
def gB : GroupTeardown Nat :=
  { name := "b", members := [⟨"b-1", Outcome.ok 1⟩, ⟨"b-2", Outcome.ok 2⟩],
    hasOnDestroy := true }

/-- A WorldLog whose single event starts 5s after the log was created
and finishes 3s before teardown. -/
def elEx : WorldLogT :=
  { startTime := 0, finishTime := 10,
    events := [{ id := 0, description := "e", startTime := 5, finishTime := some 7 }] }

/-- An event spanning a whole 1-second log. -/
def eFull : EventT := { id := 1, description := "full", startTime := 0, finishTime := some 1 }

/-- An event of zero measured duration. -/
def eZero : EventT :=
  { id := 2, description := "zero", startTime := 1 / 2, finishTime := some (1 / 2) }

/-- A 1-second-total WorldLog containing the two events above. -/
def elW : WorldLogT := { startTime := 0, finishTime := 1, events := [eFull, eZero] }

end Testworld

namespace Testworld

/-! ## Theorems -/

theorem newContainer_wc_Name {α : Type} (w : WorldT α) (spec : ContainerSpecT) :
    (newContainer w spec).wc.Name =
      w.name ++ "-" ++ kindOf spec ++ "-" ++
        decRepr (w.containerKinds (kindOf spec) + 1) := rfl

theorem groupName_counter_inj (p : String) (c₁ c₂ : Nat)
    (h : p ++ decRepr c₁ = p ++ decRepr c₂) : c₁ = c₂ := by
  apply decRepr_injective
  have hd := congrArg String.data h
  simp only [String.data_append] at hd
  have := List.append_cancel_left hd
  exact String.ext this

/-- Claim C1: the claim states that a spec with Awaited = true makes
NewContainer run the provisioning body on the caller's thread and
return with every pending slot already resolved. The code of
NewContainer in testworld.go schedules createFn with `go` for every
replica unconditionally and never reads spec.Awaited, so at return the
slot of this Awaited spec is still unresolved and its provisioning body
sits in the concurrently scheduled task list. -/
theorem newContainer_ignores_awaited :
    awaitedSpec.Awaited = true ∧
      (newContainer w0 awaitedSpec).wc.pending =
        [{ name := "TestWorld-alpine-1", resolved := none }] ∧
      (newContainer w0 awaitedSpec).spawned =
        [{ slotIndex := 0, replicaName := "TestWorld-alpine-1",
           aliases := ["TestWorld-alpine-1"] }] := by
  refine ⟨rfl, ?_, ?_⟩ <;> decide

/-- Claim C10: a non-positive Replicas value is treated exactly like
Replicas = 1: the whole NewContainer result is the same, the group has
exactly one pending slot, and the sole member's address is the group
name. -/
theorem newContainer_nonpos_replicas {α : Type} (w : WorldT α) (spec : ContainerSpecT)
    (h : spec.Replicas ≤ 0) :
    newContainer w spec = newContainer w { spec with Replicas := 1 } ∧
      (newContainer w spec).wc.pending.length = 1 ∧
      (newContainer w spec).wc.pending.map PendingContainer.name =
        [(newContainer w spec).wc.Name] := by
  have h1 : max spec.Replicas 1 = 1 := max_eq_right (le_trans h (by norm_num))
  refine ⟨?_, ?_, ?_⟩
  · simp [newContainer, kindOf, h1]
  · simp [newContainer, h1]
  · simp [newContainer, h1, replicaNameOf]

/-- Witness for C10 at a zero and a negative replica count. -/
theorem newContainer_nonpos_replicas_witness :
    (newContainer w0 specZeroReplicas).wc.pending.length = 1 ∧
      (newContainer w0 { specZeroReplicas with Replicas := -2 }).wc.pending.map
          PendingContainer.name =
        [(newContainer w0 { specZeroReplicas with Replicas := -2 }).wc.Name] :=
  ⟨(newContainer_nonpos_replicas w0 specZeroReplicas (by decide)).2.1,
   (newContainer_nonpos_replicas w0 { specZeroReplicas with Replicas := -2 }
      (by decide)).2.2⟩

/-- Claim C4: the group is named world-kind-counter with the per-kind
counter read after incrementing; a second same-kind group gets the next
counter value and a distinct name; a requested replica count N ≥ 1
yields exactly N pending slots; with N = 1 the sole member's address is
the group name with alias list [group]; with N > 1 member i (1-indexed)
is named group-i with alias list [group-i, group]. -/
theorem newContainer_naming {α : Type} (w : WorldT α) (spec spec2 : ContainerSpecT) :
    (newContainer w spec).wc.Name =
        w.name ++ "-" ++ kindOf spec ++ "-" ++
          decRepr (w.containerKinds (kindOf spec) + 1) ∧
      (newContainer w spec).world.containerKinds (kindOf spec) =
        w.containerKinds (kindOf spec) + 1 ∧
      (kindOf spec2 = kindOf spec →
        (newContainer (newContainer w spec).world spec2).world.containerKinds
            (kindOf spec) = w.containerKinds (kindOf spec) + 2 ∧
          (newContainer (newContainer w spec).world spec2).wc.Name ≠
            (newContainer w spec).wc.Name) ∧
      (1 ≤ spec.Replicas →
        (newContainer w spec).wc.pending.length = spec.Replicas.toNat) ∧
      (spec.Replicas = 1 →
        (newContainer w spec).wc.pending.map PendingContainer.name =
            [(newContainer w spec).wc.Name] ∧
          (newContainer w spec).spawned.map ProvisionTask.aliases =
            [[(newContainer w spec).wc.Name]]) ∧
      (1 < spec.Replicas →
        (newContainer w spec).wc.pending.map PendingContainer.name =
            (List.range spec.Replicas.toNat).map
              (fun i => (newContainer w spec).wc.Name ++ "-" ++ decRepr (i + 1)) ∧
          (newContainer w spec).spawned.map ProvisionTask.aliases =
            (List.range spec.Replicas.toNat).map
              (fun i => [(newContainer w spec).wc.Name ++ "-" ++ decRepr (i + 1),
                (newContainer w spec).wc.Name])) := by
  refine ⟨rfl, ?_, ?_, ?_, ?_, ?_⟩
  · simp [newContainer]
  · intro hk
    constructor
    · simp [newContainer, hk]
    · intro heq
      simp only [newContainer, hk] at heq
      have h2 : w.containerKinds (kindOf spec) + 1 + 1 =
          w.containerKinds (kindOf spec) + 1 :=
        groupName_counter_inj _ _ _ heq
      omega
  · intro h
    have h1 : max spec.Replicas 1 = spec.Replicas := max_eq_left h
    simp [newContainer, h1]
  · intro h
    have h1 : max spec.Replicas 1 = 1 := by rw [h]; exact max_self 1
    have hr : List.range 1 = [0] := rfl
    simp [newContainer, h1, replicaNameOf, aliasesOf, hr]
  · intro h
    have h1 : max spec.Replicas 1 = spec.Replicas := max_eq_left (le_of_lt h)
    constructor
    · simp [newContainer, replicaNameOf, h1, h]
    · simp [newContainer, replicaNameOf, aliasesOf, h1, h]

/-- Witness for C4: two alpine groups in one world get distinct names,
the three-replica group has members group-1, group-2, group-3, and the
single-replica group's sole member address is the group name. -/
theorem newContainer_naming_witness :
    (newContainer (newContainer w0 specA).world specA).wc.Name ≠
        (newContainer w0 specA).wc.Name ∧
      (newContainer w0 specR3).wc.pending.map PendingContainer.name =
        ["TestWorld-caddy-1-1", "TestWorld-caddy-1-2", "TestWorld-caddy-1-3"] ∧
      (newContainer w0 specA).wc.pending.map PendingContainer.name =
        ["TestWorld-alpine-1"] := by
  refine ⟨((newContainer_naming w0 specA specA).2.2.1 rfl).2, ?_, ?_⟩
  · rw [((newContainer_naming w0 specR3 specA).2.2.2.2.2 (by decide)).1]
    decide
  · rw [((newContainer_naming w0 specA specA).2.2.2.2.1 rfl).1]
    decide

theorem waitReady_of_err {α : Type} (slots : List (ResolvedSlot α)) (k : Nat)
    (nm m : String)
    (hk : slots[k]? = some { name := nm, outcome := Outcome.err m })
    (hbefore : ∀ i, i < k → ∀ s, slots[i]? = some s → ∃ h, s.outcome = Outcome.ok h) :
    (waitReady slots).reads = k + 1 ∧
      (waitReady slots).errMsg = some (nm ++ ": " ++ m) := by
  induction slots generalizing k with
  | nil => simp at hk
  | cons s rest ih =>
    cases k with
    | zero =>
      have hs : s = { name := nm, outcome := Outcome.err m } := by
        simpa using hk
      subst hs
      simp [waitReady]
    | succ k =>
      obtain ⟨h, hok⟩ := hbefore 0 (Nat.succ_pos k) s (by simp)
      have hrest := ih k (by simpa using hk)
        (fun i hi t ht => hbefore (i + 1) (by omega) t (by simpa using ht))
      rw [waitReady, hok]
      exact ⟨by simp [hrest.1], by simp [hrest.2]⟩

theorem waitReady_of_ok {α : Type} (slots : List (ResolvedSlot α))
    (hok : ∀ s, s ∈ slots → ∃ h, s.outcome = Outcome.ok h) :
    waitReady slots =
      { containers := slots.map (fun s => s.outcome.handleOpt),
        errMsg := none, reads := slots.length } := by
  induction slots with
  | nil => simp [waitReady]
  | cons s rest ih =>
    obtain ⟨h, hs⟩ := hok s (by simp)
    rw [waitReady, hs, ih (fun t ht => hok t (by simp [ht]))]
    simp [hs, Outcome.handleOpt]

/-- Claim C2: waitReady resolves members in index order and
short-circuits at the first member whose slot holds an error — it
receives from exactly the first k+1 ready channels when member k is the
first failure, it returns an error naming that member, and mustReady
turns it into a fatal failure message carrying the member name; when
every member resolved successfully it returns all handles in member
order. -/
theorem mustReady_short_circuit {α : Type} :
    (∀ (slots : List (ResolvedSlot α)) (k : Nat) (nm m g : String),
      slots[k]? = some { name := nm, outcome := Outcome.err m } →
      (∀ i, i < k → ∀ s, slots[i]? = some s → ∃ h, s.outcome = Outcome.ok h) →
      (waitReady slots).reads = k + 1 ∧
        (waitReady slots).errMsg = some (nm ++ ": " ++ m) ∧
        mustReady g slots =
          MustReadyResult.fatal
            ("Container " ++ g ++ " failed to create: " ++ (nm ++ ": " ++ m))) ∧
    (∀ (slots : List (ResolvedSlot α)) (g : String),
      (∀ s, s ∈ slots → ∃ h, s.outcome = Outcome.ok h) →
      (waitReady slots).reads = slots.length ∧
        (waitReady slots).errMsg = none ∧
        mustReady g slots =
          MustReadyResult.ok (slots.map (fun s => s.outcome.handleOpt))) := by
  constructor
  · intro slots k nm m g hk hbefore
    obtain ⟨h1, h2⟩ := waitReady_of_err slots k nm m hk hbefore
    exact ⟨h1, h2, by simp [mustReady, h2]⟩
  · intro slots g hok
    have h := waitReady_of_ok slots hok
    exact ⟨by simp [h], by simp [h], by simp [mustReady, h]⟩

/-- Witness for C2: in a 3-member group whose second member failed, the
loop receives from exactly two channels, the error names the second
member, mustReady reports fatally with that name, and an all-ok group
returns the three handles in member order. -/
theorem mustReady_short_circuit_witness :
    (waitReady [⟨"g-1", Outcome.ok 11⟩, ⟨"g-2", Outcome.err "boom"⟩,
        ⟨"g-3", Outcome.ok 13⟩]).reads = 2 ∧
      mustReady "g" [⟨"g-1", Outcome.ok 11⟩, ⟨"g-2", Outcome.err "boom"⟩,
          ⟨"g-3", Outcome.ok 13⟩] =
        MustReadyResult.fatal "Container g failed to create: g-2: boom" ∧
      mustReady "g" [⟨"g-1", Outcome.ok 11⟩, ⟨"g-2", Outcome.ok 12⟩,
          ⟨"g-3", Outcome.ok 13⟩] =
        MustReadyResult.ok [some 11, some 12, some 13] := by
  have he := (mustReady_short_circuit (α := Nat)).1
    [⟨"g-1", Outcome.ok 11⟩, ⟨"g-2", Outcome.err "boom"⟩, ⟨"g-3", Outcome.ok 13⟩]
    1 "g-2" "boom" "g" (by decide)
    (by
      intro i hi s hs
      interval_cases i
      simp only [List.getElem?_cons_zero, Option.some.injEq] at hs
      refine ⟨11, ?_⟩
      rw [← hs])
  have ho := (mustReady_short_circuit (α := Nat)).2
    [⟨"g-1", Outcome.ok 11⟩, ⟨"g-2", Outcome.ok 12⟩, ⟨"g-3", Outcome.ok 13⟩]
    "g" (by intro s hs; fin_cases hs <;> exact ⟨_, rfl⟩)
  refine ⟨he.1, ?_, ?_⟩
  · rw [he.2.2]
    decide
  · rw [ho.2.2]
    decide

theorem map_mk_slotIndex (f : Nat → String) (g : Nat → List String) (l : List Nat) :
    (l.map (fun i => ProvisionTask.mk i (f i) (g i))).map ProvisionTask.slotIndex = l := by
  induction l with
  | nil => rfl
  | cons a as ih => simp [ih]

/-- Claim C9: reading a resolved Pending Slot leaves the slot store
untouched, so any number of subsequent waitReady calls return the same
stored handle-or-error data, and NewContainer schedules exactly one
provisioning task per replica slot (slot indices 0..n-1, one task
each), so no read can trigger a second provisioning attempt. -/
theorem waitReady_idempotent {α : Type} :
    (∀ store : List (ResolvedSlot α),
      (waitReadyOp ((waitReadyOp store).2)).1 = (waitReadyOp store).1 ∧
        (waitReadyOp store).2 = store) ∧
    (∀ (w : WorldT α) (spec : ContainerSpecT),
      (newContainer w spec).spawned.map ProvisionTask.slotIndex =
        List.range (newContainer w spec).wc.pending.length) := by
  constructor
  · intro store
    exact ⟨rfl, rfl⟩
  · intro w spec
    simp only [newContainer, List.length_map, List.length_range]
    exact map_mk_slotIndex _ _ _

theorem runOnDestroy_not_mem_destroyMember {α : Type} (m : ResolvedSlot α) (x : String) :
    DestroyAction.runOnDestroy x ∉ destroyMember m := by
  cases m with
  | mk nm oc => cases oc <;> simp [destroyMember]

theorem count_runOnDestroy_members {α : Type} (ms : List (ResolvedSlot α)) (x : String) :
    (ms.flatMap destroyMember).count (DestroyAction.runOnDestroy x) = 0 := by
  induction ms with
  | nil => rfl
  | cons m ms ih =>
    rw [List.flatMap_cons, List.count_append, ih,
      List.count_eq_zero.mpr (runOnDestroy_not_mem_destroyMember m x)]

theorem count_runOnDestroy_destroyGroup {α : Type} (g : GroupTeardown α) (x : String) :
    (destroyGroup g).count (DestroyAction.runOnDestroy x) =
      if g.hasOnDestroy = true ∧ x = g.name then 1 else 0 := by
  rw [destroyGroup, List.count_append, count_runOnDestroy_members]
  by_cases h : g.hasOnDestroy = true
  · by_cases hx : x = g.name
    · simp [h, hx, List.count_cons]
    · simp [h, hx, List.count_cons, Ne.symm hx]
  · simp [h]

theorem count_runOnDestroy_zero_of_names {α : Type} (gs : List (GroupTeardown α))
    (x : String) (hx : ∀ g, g ∈ gs → x ≠ g.name) :
    (gs.flatMap destroyGroup).count (DestroyAction.runOnDestroy x) = 0 := by
  induction gs with
  | nil => rfl
  | cons g gs ih =>
    rw [List.flatMap_cons, List.count_append, count_runOnDestroy_destroyGroup,
      ih (fun g hg => hx g (by simp [hg]))]
    simp [hx g (by simp)]

theorem resolveSlot_mem_destroyMember {α : Type} (m : ResolvedSlot α) :
    DestroyAction.resolveSlot m.name ∈ destroyMember m := by
  cases m with
  | mk nm oc => cases oc <;> simp [destroyMember]

theorem resolveSlot_mem_destroyGroup {α : Type} (g : GroupTeardown α)
    (m : ResolvedSlot α) (hm : m ∈ g.members) :
    DestroyAction.resolveSlot m.name ∈ destroyGroup g := by
  rw [destroyGroup]
  refine List.mem_append_left _ ?_
  exact List.mem_flatMap.mpr ⟨m, hm, resolveSlot_mem_destroyMember m⟩

/-- Claim C3: during World.Destroy every member of every registered
group is resolved; a member whose creation failed only has the failure
reported (no log collection, no termination) while a successful member
has its logs collected and is terminated, and the loop continues either
way; each group's onDestroy callback runs exactly once, after all of
that group's members were handled; the world log is finalized last,
after every group. -/
theorem destroy_runs_to_completion {α : Type} :
    (∀ m : ResolvedSlot α, ∀ e, m.outcome = Outcome.err e →
        destroyMember m =
          [DestroyAction.resolveSlot m.name, DestroyAction.reportCreateFailure m.name]) ∧
      (∀ m : ResolvedSlot α, ∀ h, m.outcome = Outcome.ok h →
        destroyMember m =
          [DestroyAction.resolveSlot m.name, DestroyAction.collectLogs m.name,
            DestroyAction.terminate m.name]) ∧
      (∀ gs : List (GroupTeardown α), ∀ g, g ∈ gs → ∀ m, m ∈ g.members →
        DestroyAction.resolveSlot m.name ∈ destroyWorld gs) ∧
      (∀ gs : List (GroupTeardown α), ∀ g, g ∈ gs → g.hasOnDestroy = true →
        (gs.map GroupTeardown.name).Nodup →
        (destroyWorld gs).count (DestroyAction.runOnDestroy g.name) = 1 ∧
          ∃ pre post,
            destroyWorld gs = pre ++ DestroyAction.runOnDestroy g.name :: post ∧
              ∀ m, m ∈ g.members → DestroyAction.resolveSlot m.name ∈ pre) ∧
      (∀ gs : List (GroupTeardown α),
        (destroyWorld gs).getLast? = some DestroyAction.finalizeTimeline) := by
  refine ⟨?_, ?_, ?_, ?_, ?_⟩
  · intro m e he
    cases m with
    | mk nm oc => cases he; rfl
  · intro m h hh
    cases m with
    | mk nm oc => cases hh; rfl
  · intro gs g hg m hm
    rw [destroyWorld]
    refine List.mem_append_left _ ?_
    exact List.mem_flatMap.mpr ⟨g, hg, resolveSlot_mem_destroyGroup g m hm⟩
  · intro gs g hg hcb hnd
    constructor
    · rw [destroyWorld, List.count_append]
      have hfin :
          (([DestroyAction.finalizeTimeline] : List DestroyAction)).count
            (DestroyAction.runOnDestroy g.name) = 0 := by simp
      rw [hfin, Nat.add_zero]
      induction gs with
      | nil => cases hg
      | cons gh gt ih =>
        rw [List.flatMap_cons, List.count_append]
        rcases List.mem_cons.mp hg with rfl | hgt
        · rw [count_runOnDestroy_destroyGroup]
          have hzero : (gt.flatMap destroyGroup).count
              (DestroyAction.runOnDestroy g.name) = 0 := by
            apply count_runOnDestroy_zero_of_names
            intro g2 hg2 heq
            have : g.name ∈ gt.map GroupTeardown.name :=
              heq ▸ List.mem_map_of_mem GroupTeardown.name hg2
            simp at hnd
            exact hnd.1 g2 hg2 heq.symm
          rw [hzero, hcb]
          simp
        · have hne : g.name ≠ gh.name := by
            intro heq
            simp at hnd
            exact hnd.1 g hgt heq
          rw [count_runOnDestroy_destroyGroup]
          have hnd2 : (gt.map GroupTeardown.name).Nodup := by
            simp at hnd
            exact hnd.2
          rw [ih hgt hnd2]
          simp [hne]
    · induction gs with
      | nil => cases hg
      | cons gh gt ih =>
        rcases List.mem_cons.mp hg with rfl | hgt
        · refine ⟨g.members.flatMap destroyMember,
            gt.flatMap destroyGroup ++ [DestroyAction.finalizeTimeline], ?_, ?_⟩
          · rw [destroyWorld, List.flatMap_cons, destroyGroup, hcb]
            simp
          · intro m hm
            exact List.mem_flatMap.mpr ⟨m, hm, resolveSlot_mem_destroyMember m⟩
        · have hnd2 : (gt.map GroupTeardown.name).Nodup := by
            simp at hnd
            exact hnd.2
          obtain ⟨pre, post, hsplit, hpre⟩ := ih hgt hnd2
          refine ⟨destroyGroup gh ++ pre, post, ?_, ?_⟩
          · rw [destroyWorld, List.flatMap_cons]
            rw [destroyWorld] at hsplit
            rw [List.append_assoc, hsplit, List.append_assoc]
          · intro m hm
            exact List.mem_append_right _ (hpre m hm)
  · intro gs
    rw [destroyWorld]
    exact List.getLast?_concat _

/-- Witness for C3 on a concrete two-group world: the failed member is
resolved and only reported, both groups' members all appear resolved
in the trace, the second group's callback runs exactly once, and the
final action is the timeline finalization. -/
theorem destroy_runs_to_completion_witness :
    destroyMember (⟨"a-1", Outcome.err "nope"⟩ : ResolvedSlot Nat) =
        [DestroyAction.resolveSlot "a-1", DestroyAction.reportCreateFailure "a-1"] ∧
      DestroyAction.resolveSlot "b-2" ∈ destroyWorld [gA, gB] ∧
      (destroyWorld [gA, gB]).count (DestroyAction.runOnDestroy "b") = 1 ∧
      (destroyWorld [gA, gB]).getLast? = some DestroyAction.finalizeTimeline := by
  refine ⟨destroy_runs_to_completion.1 _ "nope" rfl, ?_, ?_,
    destroy_runs_to_completion.2.2.2.2 _⟩
  · exact destroy_runs_to_completion.2.2.1 [gA, gB] gB (by decide)
      ⟨"b-2", Outcome.ok 2⟩ (by decide)
  · exact (destroy_runs_to_completion.2.2.2.1 [gA, gB] gB (by decide) rfl (by decide)).1

theorem runNewEvents_spec (ds : List String) (c : Nat) (evs : List (Nat × String)) :
    runNewEvents ds { eventCounter := c, events := evs } =
      { eventCounter := c + ds.length,
        events := evs ++ (List.range' c ds.length).zip ds } := by
  induction ds generalizing c evs with
  | nil => simp [runNewEvents]
  | cons d ds ih =>
    rw [runNewEvents, newEventStep, ih]
    simp [List.range'_succ]
    omega

/-- Claim C5: for any serialization of the concurrent newEvent calls of
an enabled world log (the mutex admits no other executions), the ids of
the created events are exactly 0, 1, ..., n-1 in creation order: unique
and contiguous from 0, with the shared counter left at n. -/
theorem newEvent_ids_contiguous (ds : List String) :
    ((runNewEvents ds logInit).events.map Prod.fst) = List.range ds.length ∧
      ((runNewEvents ds logInit).events.map Prod.fst).Nodup ∧
      (runNewEvents ds logInit).eventCounter = ds.length := by
  have h := runNewEvents_spec ds 0 []
  rw [logInit, h]
  have hmap : (List.map Prod.fst ((List.range' 0 ds.length).zip ds)) =
      List.range' 0 ds.length := by
    apply List.map_fst_zip
    simp
  constructor
  · simp only [List.nil_append]
    rw [hmap]
    exact (List.range_eq_range' ds.length).symm
  constructor
  · simp only [List.nil_append, hmap]
    rw [← List.range_eq_range']
    exact List.nodup_range ds.length
  · simp

/-- Claim C6: the claim states that the total span printGantt computes
equals the last event's finish minus the first event's start. The code
computes `el.finishTime - el.startTime`, the WorldLog's own lifetime;
on elEx (log alive 10s, its only event spanning 5s to 7s) the computed
span is 10 while last-finish minus first-start is 2. -/
theorem totalDuration_not_eventSpan : totalDurationOf elEx ≠ claimTotalSpan elEx := by
  norm_num [totalDurationOf, claimTotalSpan, effFinish, elEx]

/-- Claim C6 amended: the computed span is the WorldLog's finalize time
minus its creation time; when every event lies inside the log's
lifetime this upper-bounds (and need not equal) last event finish minus
first event start. -/
theorem totalDuration_bounds_eventSpan (el : WorldLogT)
    (h : ∀ e, e ∈ el.events →
      el.startTime ≤ e.startTime ∧ effFinish el e ≤ el.finishTime) :
    totalDurationOf el = el.finishTime - el.startTime ∧
      claimTotalSpan el ≤ totalDurationOf el := by
  refine ⟨rfl, ?_⟩
  rw [claimTotalSpan, totalDurationOf]
  cases hev : el.events with
  | nil => simp
  | cons e es =>
    have hhead : e ∈ el.events := by rw [hev]; exact List.mem_cons_self e es
    have hlast : (e :: es).getLast? =
        some ((e :: es).getLast (List.cons_ne_nil e es)) :=
      List.getLast?_eq_getLast _ _
    have hlmem : (e :: es).getLast (List.cons_ne_nil e es) ∈ el.events := by
      rw [hev]; exact List.getLast_mem _
    obtain ⟨_, h2⟩ := h _ hlmem
    obtain ⟨h3, _⟩ := h e hhead
    simp only [hlast, List.head?_cons]
    exact sub_le_sub h2 h3

/-- Witness for the amended C6 on elEx, whose event lies inside the
log's lifetime. -/
theorem totalDuration_bounds_eventSpan_witness :
    claimTotalSpan elEx ≤ totalDurationOf elEx :=
  (totalDuration_bounds_eventSpan elEx (by
    intro e he
    simp only [elEx, List.mem_singleton] at he
    subst he
    exact ⟨by norm_num [elEx], by norm_num [effFinish, elEx]⟩)).2

/-- Claim C8: with a positive total span, an event's bar offset is its
start minus the timeline start over the total span, its bar length its
duration (teardown time standing in for a missing finish) over the
total span, both scaled by the fixed 80-column width, the offset
truncated and clamped to at least 0 and the length truncated and
clamped to at least 1; the rendered line is id (3 digits) then a pipe,
padding, the bracketed bar, the duration to 3 decimals and the
description; an event spanning the whole timeline gets the full
80-character bar and a zero-duration event a 1-character bar. -/
theorem ganttLine_spec (el : WorldLogT) (e : EventT) (h : 0 < totalDurationOf el) :
    startPos el e =
        max (goIntOfRat ((e.startTime - el.startTime) / totalDurationOf el *
          (timelineWidth : ℚ))) 0 ∧
      barLen el e =
        max (goIntOfRat ((effFinish el e - e.startTime) / totalDurationOf el *
          (timelineWidth : ℚ))) 1 ∧
      (e.finishTime = none → ganttDuration el e = el.finishTime - e.startTime) ∧
      ganttLine el e =
        (⟨pad3 e.id⟩ : String) ++ " |" ++
          (⟨List.replicate (startPos el e).toNat ' '⟩ : String) ++ "[" ++
          (⟨List.replicate (barLen el e).toNat '#'⟩ : String) ++ "] (" ++
          fmt3 (ganttDuration el e) ++ "s) " ++ e.description ++ "\n" ∧
      (ganttDuration el e = totalDurationOf el → barLen el e = (timelineWidth : Int)) ∧
      (ganttDuration el e = 0 → barLen el e = 1) := by
  refine ⟨rfl, rfl, ?_, rfl, ?_, ?_⟩
  · intro hfin
    simp [ganttDuration, effFinish, hfin]
  · intro hdur
    rw [barLen, hdur, div_self (ne_of_gt h)]
    norm_num [goIntOfRat, timelineWidth]
  · intro hdur
    rw [barLen, hdur]
    norm_num [goIntOfRat]

/-- Witness for C8: in the 1-second log elW, the full-span event
renders an 80-character bar and the zero-duration event a 1-character
bar. -/
theorem ganttLine_spec_witness :
    barLen elW eFull = 80 ∧ barLen elW eZero = 1 := by
  constructor
  · have := (ganttLine_spec elW eFull (by norm_num [totalDurationOf, elW])).2.2.2.2.1
      (by norm_num [ganttDuration, effFinish, totalDurationOf, elW, eFull])
    simpa [timelineWidth] using this
  · exact (ganttLine_spec elW eZero (by norm_num [totalDurationOf, elW])).2.2.2.2.2
      (by norm_num [ganttDuration, effFinish, elW, eZero])

theorem bytesLt_asymm : ∀ {a b : List Char}, bytesLt a b = true → bytesLt b a = false := by
  intro a
  induction a with
  | nil =>
    intro b h
    cases b with
    | nil => simp [bytesLt] at h
    | cons y ys => simp [bytesLt]
  | cons x xs ih =>
    intro b h
    cases b with
    | nil => simp [bytesLt] at h
    | cons y ys =>
      rw [bytesLt] at h ⊢
      rcases lt_trichotomy x y with hxy | hxy | hxy
      · simp [hxy, not_lt_of_gt hxy]
      · subst hxy
        simp only [lt_irrefl, if_false] at h ⊢
        exact ih h
      · simp [hxy, not_lt_of_gt hxy] at h

theorem bytesLt_trans : ∀ {a b c : List Char},
    bytesLt a b = true → bytesLt b c = true → bytesLt a c = true := by
  intro a
  induction a with
  | nil =>
    intro b c hab hbc
    cases c with
    | nil =>
      cases b with
      | nil => exact hab
      | cons y ys => simp [bytesLt] at hbc
    | cons z zs => simp [bytesLt]
  | cons x xs ih =>
    intro b c hab hbc
    cases b with
    | nil => simp [bytesLt] at hab
    | cons y ys =>
      cases c with
      | nil => simp [bytesLt] at hbc
      | cons z zs =>
        rw [bytesLt] at hab hbc ⊢
        rcases lt_trichotomy x y with hxy | hxy | hxy
        · rcases lt_trichotomy y z with hyz | hyz | hyz
          · simp [lt_trans hxy hyz]
          · subst hyz
            simp [hxy]
          · simp [hyz, not_lt_of_gt hyz] at hbc
        · subst hxy
          rcases lt_trichotomy x z with hxz | hxz | hxz
          · simp [hxz]
          · subst hxz
            simp only [lt_irrefl, if_false] at hab hbc ⊢
            exact ih hab hbc
          · simp [hxz, not_lt_of_gt hxz] at hbc
        · simp [hxy, not_lt_of_gt hxy] at hab

theorem bytesLt_trichotomy :
    ∀ (a b : List Char), bytesLt a b = true ∨ a = b ∨ bytesLt b a = true := by
  intro a
  induction a with
  | nil =>
    intro b
    cases b with
    | nil => exact Or.inr (Or.inl rfl)
    | cons y ys => exact Or.inl (by simp [bytesLt])
  | cons x xs ih =>
    intro b
    cases b with
    | nil => exact Or.inr (Or.inr (by simp [bytesLt]))
    | cons y ys =>
      rcases lt_trichotomy x y with hxy | hxy | hxy
      · exact Or.inl (by rw [bytesLt]; simp [hxy])
      · subst hxy
        rcases ih ys with h | h | h
        · exact Or.inl (by rw [bytesLt]; simp [h])
        · exact Or.inr (Or.inl (by rw [h]))
        · exact Or.inr (Or.inr (by rw [bytesLt]; simp [h]))
      · exact Or.inr (Or.inr (by rw [bytesLt]; simp [hxy]))

theorem decDigitsCore_length_le (k : Nat) :
    ∀ (fuel n : Nat), n < fuel → n < 10 ^ k → 1 ≤ k →
      (decDigitsCore fuel n).length ≤ k := by
  induction k with
  | zero => omega
  | succ k ih =>
    intro fuel n hf hn _
    cases fuel with
    | zero => omega
    | succ fuel =>
      rw [decDigitsCore]
      by_cases h : n < 10
      · simp [h]
      · rw [if_neg h]
        have hk1 : 1 ≤ k := by
          by_contra hk
          have : k = 0 := by omega
          subst this
          simp at hn
          omega
        have hdiv : n / 10 < fuel := by
          have : n / 10 < n := Nat.div_lt_self (by omega) (by omega)
          omega
        have hpow : n / 10 < 10 ^ k := by
          rw [Nat.div_lt_iff_lt_mul (by omega)]
          calc n < 10 ^ (k + 1) := hn
          _ = 10 ^ k * 10 := by ring
        have := ih fuel (n / 10) hdiv hpow hk1
        simp [List.length_append]
        omega

theorem pad3_length (n : Nat) (h : n < 1000) : (pad3 n).length = 3 := by
  have hle : (decDigits n).length ≤ 3 := by
    apply decDigitsCore_length_le 3 (n + 1) n (Nat.lt_succ_self n) (by norm_num; omega)
    norm_num
  rw [pad3, List.length_append, List.length_replicate]
  omega

set_option maxRecDepth 10000

theorem pad3_adjacent : ∀ i, i < 999 → bytesLt (pad3 i) (pad3 (i + 1)) = true := by
  decide

theorem pad3_mono (i : Nat) : ∀ j, i < j → j ≤ 999 → bytesLt (pad3 i) (pad3 j) = true := by
  intro j
  induction j with
  | zero => omega
  | succ j ih =>
    intro hij hj
    by_cases hcase : i = j
    · subst hcase
      exact pad3_adjacent i (by omega)
    · exact bytesLt_trans (ih (by omega) (by omega)) (pad3_adjacent j (by omega))

theorem bytesLt_append_left (p : List Char) (a b : List Char) :
    bytesLt (p ++ a) (p ++ b) = bytesLt a b := by
  induction p with
  | nil => rfl
  | cons x xs ih => simp [bytesLt, ih]

theorem bytesLt_append_of_length_eq :
    ∀ {a b : List Char} (s t : List Char), a.length = b.length →
      bytesLt a b = true → bytesLt (a ++ s) (b ++ t) = true := by
  intro a
  induction a with
  | nil =>
    intro b s t hlen hab
    cases b with
    | nil => simp [bytesLt] at hab
    | cons y ys => simp at hlen
  | cons x xs ih =>
    intro b s t hlen hab
    cases b with
    | nil => simp at hlen
    | cons y ys =>
      rw [bytesLt] at hab
      rw [List.cons_append, List.cons_append, bytesLt]
      rcases lt_trichotomy x y with hxy | hxy | hxy
      · simp [hxy]
      · subst hxy
        simp only [lt_irrefl, if_false] at hab ⊢
        exact ih s t (by simpa using hlen) hab
      · simp [hxy, not_lt_of_gt hxy] at hab

theorem eventFileName_data (i : Nat) :
    (eventFileName i).data = "event_".data ++ (pad3 i ++ ".log".data) := by
  rw [eventFileName]
  simp [String.data_append]

theorem eventFileName_lt (i j : Nat) (hij : i < j) (hj : j ≤ 999) :
    fileNameLt (eventFileName i) (eventFileName j) = true := by
  rw [fileNameLt, eventFileName_data, eventFileName_data, bytesLt_append_left]
  apply bytesLt_append_of_length_eq
  · rw [pad3_length i (by omega), pad3_length j (by omega)]
  · exact pad3_mono i j hij hj

theorem fileLe_trans (a b c : Nat) (hab : fileLe a b = true) (hbc : fileLe b c = true) :
    fileLe a c = true := by
  rw [fileLe, Bool.not_eq_true', fileNameLt] at hab hbc ⊢
  by_contra hac
  rw [Bool.not_eq_false] at hac
  rcases bytesLt_trichotomy (eventFileName a).data (eventFileName b).data with h | h | h
  · have := bytesLt_trans hac h
    rw [this] at hbc
    cases hbc
  · rw [← h] at hbc
    rw [hac] at hbc
    cases hbc
  · rw [h] at hab
    cases hab

theorem fileLe_total (a b : Nat) : fileLe a b || fileLe b a := by
  rw [fileLe, fileLe, fileNameLt, fileNameLt]
  by_cases h : bytesLt (eventFileName b).data (eventFileName a).data = true
  · simp [h, bytesLt_asymm h]
  · simp [h]

/-- Claim C7: the claim states that finalizing the Timeline always
concatenates event outputs in increasing id order. Event files are
named event_%03d.log and os.ReadDir returns them sorted by name in
byte order, and the name of id 1000 ("event_1000.log") sorts before
the name of id 999 ("event_999.log"), so with 1001 events the
concatenation order is not the id order. -/
theorem concatOrder_not_id_order : concatOrder 1001 ≠ List.range 1001 := by
  intro h
  have hs := List.sorted_mergeSort fileLe_trans fileLe_total (List.range 1001)
  rw [concatOrder] at h
  rw [h, List.pairwise_iff_getElem] at hs
  have h2 := hs 999 1000 (by simp) (by simp) (by omega)
  simp only [List.getElem_range] at h2
  have h3 : fileNameLt (eventFileName 1000) (eventFileName 999) = true := by decide
  rw [fileLe, h3] at h2
  cases h2

/-- Claim C7 amended: as long as at most 1000 events are created (all
ids at most 999, so every file name is exactly three digits wide), the
file names sort exactly in id order and finish() concatenates every
event's output in increasing id order; beyond that the order is the
byte order of the zero-padded names. -/
theorem concatOrder_id_order (n : Nat) (hn : n ≤ 1000) :
    concatOrder n = List.range n := by
  rw [concatOrder]
  apply List.mergeSort_of_sorted
  rw [List.pairwise_iff_getElem]
  intro i j hi hj hij
  simp only [List.getElem_range]
  have hj9 : j ≤ 999 := by
    simp only [List.length_range] at hj
    omega
  have hlt := eventFileName_lt i j hij hj9
  have hlt2 : bytesLt (eventFileName i).data (eventFileName j).data = true := by
    rw [fileNameLt] at hlt
    exact hlt
  have hfalse := bytesLt_asymm hlt2
  rw [fileLe, fileNameLt, hfalse]
  rfl

/-- Witness for the amended C7: with five events the concatenation
order is 0, 1, 2, 3, 4. -/
theorem concatOrder_id_order_witness : concatOrder 5 = List.range 5 :=
  concatOrder_id_order 5 (by norm_num)

end Testworld
